import Mathlib

/-!
Shallow embedding of the scalable-syslog control-plane core
(scheduler configuration, adapter-service deltas, binding manager,
binding fetcher, ingress client pool) together with proofs of the
specification's claims about it.

Source-backed definitions are translated from
`src/scheduler/app/config.go` (`LoadConfig`, `parseBlacklist`,
`parseAddrs`).  Components of the repository whose implementation files
are not under `src/` (only their tests or callers are) are modelled from
the specification text; each such definition carries a doc comment
starting with `Modelled from the spec:`.
-/

/-- Outcome of a Go computation that may panic (e.g. an out-of-range
slice index).  `panics` models a Go runtime panic; `ok` a normal
return. -/
inductive GoResult (α : Type) : Type
  | panics : GoResult α
  | ok (val : α) : GoResult α
deriving DecidableEq, Repr

instance {ε α : Type} [DecidableEq ε] [DecidableEq α] : DecidableEq (Except ε α) :=
  fun a b =>
    match a, b with
    | .error e, .error e' =>
      if h : e = e' then isTrue (by rw [h]) else isFalse (fun hc => by cases hc; exact h rfl)
    | .error _, .ok _ => isFalse (fun hc => by cases hc)
    | .ok _, .error _ => isFalse (fun hc => by cases hc)
    | .ok v, .ok v' =>
      if h : v = v' then isTrue (by rw [h]) else isFalse (fun hc => by cases hc; exact h rfl)

/- ### Executable counterparts of the Go string helpers

`strings.Split` with a one-character separator and the decimal parse
inside `net.ParseIP` are embedded by structural recursion over the
string's character list, so that every claim can be evaluated on
concrete inputs. -/

/-- Split a character list at every occurrence of `sep`
(Go `strings.Split` semantics: splitting the empty string yields one
empty piece, a trailing separator yields a trailing empty piece). -/
def splitChars (sep : Char) : List Char → List (List Char)
  | [] => [[]]
  | c :: rest =>
    let r := splitChars sep rest
    if c = sep then [] :: r
    else
      match r with
      | h :: t => (c :: h) :: t
      | [] => [[c]]

/-- `strings.Split(s, sep)` for a one-character separator. -/
def goSplit (s : String) (sep : Char) : List String :=
  (splitChars sep s.data).map (fun cs => ⟨cs⟩)

/-- Accumulate decimal digits; fails on any non-digit character. -/
def digitsToNat (acc : Nat) : List Char → Option Nat
  | [] => some acc
  | c :: rest =>
    if '0' ≤ c ∧ c ≤ '9' then digitsToNat (acc * 10 + (c.toNat - 48)) rest
    else none

/-- Parse a nonempty all-digit decimal string. -/
def goParseNat? (s : String) : Option Nat :=
  match s.data with
  | [] => none
  | cs => digitsToNat 0 cs

/-- A drain binding: (AppId, Hostname, Drain URL), value semantics with
structural equality (spec §3, `v1.Binding`). -/
structure Binding where
  appId : String
  hostname : String
  drain : String
deriving DecidableEq, Repr

/-- Desired state for one application: hostname plus the set of drain
URLs (spec §3 `AppBindings`, Go `ingress.Binding`). -/
structure AppBinding where
  hostname : String
  drains : List String
deriving DecidableEq, Repr

/-- Desired view: mapping from AppId to its `AppBinding`
(Go `map[string]ingress.Binding`, embedded as an association list with
distinct keys). -/
abbrev AppBindings : Type := List (String × AppBinding)

/-- Actual view: ordered sequence indexed by adapter position; each
element is the set of bindings that adapter currently serves
(spec §3 `BindingList`, Go `egress.BindingList`). -/
abbrev BindingList : Type := List (List Binding)

/- ### IPv4 parsing and IP ranges

`net.ParseIP` from the Go standard library is embedded restricted to
dotted-quad IPv4 text, the only address form the spec's blacklist
handles (spec §3 `IPRange` is an "inclusive IPv4 pair"); the stdlib's
additional IPv6 acceptance is out of scope for every claim. -/

/-- One decimal octet 0..255, as accepted within a dotted quad. -/
def parseOctet (s : String) : Option Nat :=
  match goParseNat? s with
  | some n => if n ≤ 255 then some n else none
  | none => none

/-- Parse dotted-quad IPv4 text to its numeric 32-bit value. -/
def parseIPv4 (s : String) : Option Nat :=
  match (goSplit s '.').mapM parseOctet with
  | some [a, b, c, d] => some (((a * 256 + b) * 256 + c) * 256 + d)
  | _ => none

/-- An inclusive blacklist range, endpoints as strings exactly as the Go
struct `ingress.IPRange{Start, End string}` holds them. -/
structure IPRange where
  Start : String
  End : String
deriving DecidableEq, Repr

/-- Validated collection of blacklist ranges (Go `ingress.IPRanges`). -/
structure IPRanges where
  ranges : List IPRange
deriving DecidableEq, Repr

/-- Validation pass over candidate ranges: both endpoints must parse as
IPv4 and Start must not exceed End numerically. -/
def checkRanges : List IPRange → Except String Unit
  | [] => .ok ()
  | r :: rest =>
    match parseIPv4 r.Start, parseIPv4 r.End with
    | some s, some e =>
      if s ≤ e then checkRanges rest
      else .error "invalid IP range: start greater than end"
    | _, _ => .error "invalid IP address in range"

/-- Modelled from the spec: `ingress.NewIPRanges` (in
`scheduler/internal/ingress`, not under `src/`).  "Invariant: Start ≤
End numerically; construction rejects malformed or reversed ranges"
(spec §3). -/
def NewIPRanges (rs : List IPRange) : Except String IPRanges :=
  match checkRanges rs with
  | .error e => .error e
  | .ok _ => .ok ⟨rs⟩

/- ### parseBlacklist (src/scheduler/app/config.go lines 90-113)

The Go loop does `ips := strings.Split(ipRange, "-")` and then reads
`ips[0]` and `ips[1]` with no length check: an entry containing no `-`
makes `ips[1]` an out-of-range index, i.e. a runtime panic.  The
embedding makes that partiality explicit through `GoResult`. -/

/-- Split one blacklist entry on `-` into `ips[0]`/`ips[1]`; `none`
models the out-of-range panic when the entry has no `-` separator. -/
def splitRange (entry : String) : Option IPRange :=
  match goSplit entry '-' with
  | first :: second :: _ => some ⟨first, second⟩
  | _ => none

/-- The loop body of `parseBlacklist`: build the `IPRange` slice,
propagating a panic from any entry. -/
def buildRanges : List String → Option (List IPRange)
  | [] => some []
  | e :: rest =>
    match splitRange e with
    | some r => (buildRanges rest).map (fun rs => r :: rs)
    | none => none

/-- `parseBlacklist` from `src/scheduler/app/config.go`: split the flag
on commas, discard the single empty entry produced by an empty string,
split each entry on `-` (panicking when `ips[1]` does not exist), and
validate through `NewIPRanges`. -/
def parseBlacklist (blacklist : String) : GoResult (Except String IPRanges) :=
  let ipRanges := goSplit blacklist ','
  let entries :=
    if ipRanges.length == 1 && (ipRanges.headD "").length == 0 then ([] : List String)
    else ipRanges
  match buildRanges entries with
  | none => .panics
  | some rs =>
    .ok (match NewIPRanges rs with
      | .error e => .error ("Failed to parse blacklist ip ranges: " ++ e)
      | .ok result => .ok result)

/- ### parseAddrs (src/scheduler/app/config.go lines 115-133) -/

/-- The loop of `parseAddrs`: each host must parse as an IP, and is
joined with the port into a hostport. -/
def parseAddrsList (port : String) : List String → Except String (List String)
  | [] => .ok []
  | h :: rest =>
    if (parseIPv4 h).isSome then
      (parseAddrsList port rest).map (fun t => (h ++ ":" ++ port) :: t)
    else .error ("invalid IP format: " ++ h)

/-- `parseAddrs` from `src/scheduler/app/config.go`. -/
def parseAddrs (ips port : String) : Except String (List String) :=
  if ips.length = 0 then .error "no IP addresses provided"
  else parseAddrsList port (goSplit ips ',')

/- ### LoadConfig (src/scheduler/app/config.go lines 32-88)

The flag set is embedded as a record of the fourteen flag values.
`flag.Parse` is embedded at the level of (name, value) pairs applied
over the declared defaults: `health` defaults to ":8080", `pprof` to
":6060", `api-skip-cert-verify` to `false`, every other flag to the
empty string.  `flags.VisitAll` visits flags in lexicographical order
of their names, which `visitOrder` reproduces. -/

structure FlagVals where
  health : String
  pprof : String
  apiURL : String
  apiCA : String
  apiCert : String
  apiKey : String
  apiCN : String
  apiSkipCertVerify : Bool
  ca : String
  cert : String
  key : String
  adapterCN : String
  adapterPort : String
  adapterIPs : String
  blacklistRanges : String
deriving DecidableEq, Repr

/-- The defaults declared by `flags.StringVar`/`flags.BoolVar` in
`LoadConfig`. -/
def defaultFlagVals : FlagVals :=
  { health := ":8080", pprof := ":6060", apiURL := "", apiCA := "",
    apiCert := "", apiKey := "", apiCN := "", apiSkipCertVerify := false,
    ca := "", cert := "", key := "", adapterCN := "", adapterPort := "",
    adapterIPs := "", blacklistRanges := "" }

/-- Set one named flag (the effect of passing `-name=value`).  The
boolean flag accepts the literal "true"; other spellings Go accepts
("1", "t", ...) are irrelevant to every claim. -/
def setFlag (fv : FlagVals) (name value : String) : FlagVals :=
  if name = "health" then { fv with health := value }
  else if name = "pprof" then { fv with pprof := value }
  else if name = "api-url" then { fv with apiURL := value }
  else if name = "api-ca" then { fv with apiCA := value }
  else if name = "api-cert" then { fv with apiCert := value }
  else if name = "api-key" then { fv with apiKey := value }
  else if name = "api-cn" then { fv with apiCN := value }
  else if name = "api-skip-cert-verify" then { fv with apiSkipCertVerify := value = "true" }
  else if name = "ca" then { fv with ca := value }
  else if name = "cert" then { fv with cert := value }
  else if name = "key" then { fv with key := value }
  else if name = "adapter-cn" then { fv with adapterCN := value }
  else if name = "adapter-port" then { fv with adapterPort := value }
  else if name = "adapter-ips" then { fv with adapterIPs := value }
  else if name = "blacklist-ranges" then { fv with blacklistRanges := value }
  else fv

/-- Apply an argument list (as (flag, value) pairs) over the defaults,
the effect of `flags.Parse(args)`. -/
def applyArgs (args : List (String × String)) : FlagVals :=
  args.foldl (fun acc p => setFlag acc p.1 p.2) defaultFlagVals

/-- The order in which `flags.VisitAll` visits the flag set:
lexicographical by flag name. -/
def visitOrder : List String :=
  ["adapter-cn", "adapter-ips", "adapter-port", "api-ca", "api-cert",
   "api-cn", "api-key", "api-skip-cert-verify", "api-url",
   "blacklist-ranges", "ca", "cert", "health", "key", "pprof"]

/-- `f.Value.String()` for each flag; the boolean flag renders as
"true"/"false" and is therefore never the empty string. -/
def flagValue (fv : FlagVals) (name : String) : String :=
  if name = "health" then fv.health
  else if name = "pprof" then fv.pprof
  else if name = "api-url" then fv.apiURL
  else if name = "api-ca" then fv.apiCA
  else if name = "api-cert" then fv.apiCert
  else if name = "api-key" then fv.apiKey
  else if name = "api-cn" then fv.apiCN
  else if name = "api-skip-cert-verify" then (if fv.apiSkipCertVerify then "true" else "false")
  else if name = "ca" then fv.ca
  else if name = "cert" then fv.cert
  else if name = "key" then fv.key
  else if name = "adapter-cn" then fv.adapterCN
  else if name = "adapter-port" then fv.adapterPort
  else if name = "adapter-ips" then fv.adapterIPs
  else if name = "blacklist-ranges" then fv.blacklistRanges
  else ""

/-- The `flags.VisitAll` body of `LoadConfig`: collect, in visit order,
every flag other than `blacklist-ranges` whose value renders empty. -/
def missingFlags (fv : FlagVals) : List String :=
  visitOrder.filter (fun n => n != "blacklist-ranges" && flagValue fv n == "")

/-- Structured form of the three error returns of `LoadConfig`: the
validation error carries the list of missing flag names (the Go code
interpolates each name into "Missing required flag <name>"). -/
inductive ConfigError : Type
  | validation (missing : List String) : ConfigError
  | adapterAddrs (msg : String) : ConfigError
  | blacklist (msg : String) : ConfigError
deriving DecidableEq, Repr

/-- The `Config` struct from `src/scheduler/app/config.go`. -/
structure Config where
  HealthHostport : String
  PprofHostport : String
  APIURL : String
  APICAFile : String
  APICertFile : String
  APIKeyFile : String
  APICommonName : String
  APISkipCertVerify : Bool
  CAFile : String
  CertFile : String
  KeyFile : String
  AdapterCommonName : String
  AdapterIPs : String
  AdapterPort : String
  AdapterAddrs : List String
  Blacklist : IPRanges
deriving DecidableEq, Repr

/-- `LoadConfig` from `src/scheduler/app/config.go`: parse the args over
the defaults, reject when any required flag renders empty (naming each
one), then parse the adapter addresses and the blacklist.  A panic in
`parseBlacklist` propagates. -/
def LoadConfig (args : List (String × String)) : GoResult (Except ConfigError Config) :=
  let fv := applyArgs args
  let missing := missingFlags fv
  if missing.isEmpty then
    match parseAddrs fv.adapterIPs fv.adapterPort with
    | .error e => .ok (.error (.adapterAddrs ("No adapter addresses: " ++ e)))
    | .ok addrs =>
      match parseBlacklist fv.blacklistRanges with
      | .panics => .panics
      | .ok (.error e) => .ok (.error (.blacklist e))
      | .ok (.ok bl) =>
        .ok (.ok
          { HealthHostport := fv.health, PprofHostport := fv.pprof,
            APIURL := fv.apiURL, APICAFile := fv.apiCA,
            APICertFile := fv.apiCert, APIKeyFile := fv.apiKey,
            APICommonName := fv.apiCN,
            APISkipCertVerify := fv.apiSkipCertVerify,
            CAFile := fv.ca, CertFile := fv.cert, KeyFile := fv.key,
            AdapterCommonName := fv.adapterCN,
            AdapterIPs := fv.adapterIPs, AdapterPort := fv.adapterPort,
            AdapterAddrs := addrs, Blacklist := bl })
  else .ok (.error (.validation missing))

/-- True when `LoadConfig` returns a config (no panic, no error). -/
def loadConfigSucceeds (args : List (String × String)) : Bool :=
  match LoadConfig args with
  | .ok (.ok _) => true
  | _ => false

/- ### Adapter service (spec §4.4)

The implementation (`scheduler/internal/egress.DefaultAdapterService`)
is not under `src/`; only its tests are.  The delta and list operations
are therefore modelled from the spec and checked for consistency with
those tests.  The pool is represented by its size: adapters are
identified with their pool index, and an issued RPC is recorded as an
(adapter index, binding) pair. -/

/-- The set of bindings adapter `i` reports in the actual view; an
index beyond the list (an adapter with no recorded slot) reports the
empty set. -/
def slotAt (actual : BindingList) (i : Nat) : List Binding :=
  actual.getD i []

/-- Number of adapters in a pool of size `pool` whose slot contains
`b`. -/
def holders (pool : Nat) (actual : BindingList) (b : Binding) : Nat :=
  ((List.range pool).filter (fun i => decide (b ∈ slotAt actual i))).length

/-- Pool indices, in pool order, of adapters that do not already hold
`b`. -/
def nonHolders (pool : Nat) (actual : BindingList) (b : Binding) : List Nat :=
  (List.range pool).filter (fun i => decide (b ∉ slotAt actual i))

/-- Modelled from the spec: the per-binding placement step of
`CreateDelta` — "count how many adapters already report that exact
Binding; while the count is below the replication factor (fixed at 2),
select the next adapter in pool order that does not already have it and
issue CreateBinding.  When fewer than 2 adapters exist, replicate to
all that exist" (spec §4.4). -/
def createsFor (pool : Nat) (actual : BindingList) (b : Binding) : List (Nat × Binding) :=
  ((nonHolders pool actual b).take (min 2 pool - holders pool actual b)).map (fun i => (i, b))

/-- Placement for every drain of one desired application entry. -/
def createsForDrains (pool : Nat) (actual : BindingList) (appId hostname : String) :
    List String → List (Nat × Binding)
  | [] => []
  | d :: ds =>
    createsFor pool actual ⟨appId, hostname, d⟩ ++
      createsForDrains pool actual appId hostname ds

/-- Modelled from the spec: `CreateDelta(actual, desired)` of the
adapter service — iterate the desired (AppId, Hostname, drain) triples
and issue the placement calls for each (spec §4.4). -/
def CreateDelta (pool : Nat) (actual : BindingList) : AppBindings → List (Nat × Binding)
  | [] => []
  | (a, ab) :: rest =>
    createsForDrains pool actual a ab.hostname ab.drains ++
      CreateDelta pool actual rest

/-- Pad the actual view with empty slots up to length `n`. -/
def padTo (actual : BindingList) (n : Nat) : BindingList :=
  actual ++ List.replicate (n - actual.length) []

/-- Apply one issued `CreateBinding` to the actual view: the target
adapter's slot now also reports the binding. -/
def applyCreate (actual : BindingList) (c : Nat × Binding) : BindingList :=
  (padTo actual (c.1 + 1)).set c.1 (c.2 :: slotAt actual c.1)

/-- Apply a sequence of issued creates. -/
def applyCreates (actual : BindingList) (cs : List (Nat × Binding)) : BindingList :=
  cs.foldl applyCreate actual

/-- Whether a binding is present in the desired view: its app entry
exists, carries the same hostname, and lists its drain. -/
def presentInDesired (desired : AppBindings) (b : Binding) : Bool :=
  desired.any (fun e => e.1 == b.appId && e.2.hostname == b.hostname && e.2.drains.contains b.drain)

/-- Modelled from the spec: `DeleteDelta(actual, desired)` of the
adapter service — "for each Binding in `actual` not present in
`desired`, call DeleteBinding on every adapter whose slot contains it"
(spec §4.4).  The helper walks the slots carrying the adapter index. -/
def deleteDeltaFrom (desired : AppBindings) : Nat → BindingList → List (Nat × Binding)
  | _, [] => []
  | i, slot :: rest =>
    (slot.filter (fun b => !presentInDesired desired b)).map (fun b => (i, b)) ++
      deleteDeltaFrom desired (i + 1) rest

/-- Modelled from the spec: `DeleteDelta` entry point. -/
def DeleteDelta (actual : BindingList) (desired : AppBindings) : List (Nat × Binding) :=
  deleteDeltaFrom desired 0 actual

/-- Modelled from the spec: the `List` operation of the adapter
service.  Its input is the per-adapter outcome, in pool order: `some
bs` when the adapter reported the binding set `bs`, `none` when its
RPC failed.  It returns the `BindingList` (failures becoming empty
slots) and the aggregate-error flag, raised only when every adapter
failed (spec §4.4, §3). -/
def ServiceList (results : List (Option (List Binding))) : BindingList × Bool :=
  (results.map (fun r => r.getD []),
   results.countP (fun r => r.isNone) == results.length)

/- ### Binding manager (spec §4.6)

The implementation (`adapter/internal/binding.BindingManager`) is not
under `src/`; only its tests are.  Modelled from the spec: a set of
active bindings each paired with a stop handle, plus the
`drain_bindings` gauge.  `Add` and `Delete` also report whether they
invoked `subscriber.Start` resp. the stored stop handle, so the claims
about subscriber interactions are statable. -/

structure BindingManager where
  bindings : List Binding
  gauge : Int
deriving DecidableEq, Repr

/-- Modelled from the spec: a fresh manager with no bindings and the
gauge at zero. -/
def NewBindingManager : BindingManager := ⟨[], 0⟩

/-- Modelled from the spec: `Add(b)` — "if `b` is already present
(structural equality), no-op.  Otherwise insert and invoke
`subscriber.Start(b)`, storing the returned stop handle.  Increments
the `drain_bindings` gauge" (spec §4.6).  The boolean reports whether
`Start` was invoked. -/
def BindingManager.Add (m : BindingManager) (b : Binding) : BindingManager × Bool :=
  if b ∈ m.bindings then (m, false)
  else (⟨m.bindings ++ [b], m.gauge + 1⟩, true)

/-- Modelled from the spec: `Delete(b)` — "if present, invoke its stop
handle and remove.  Decrements the gauge.  Missing deletes are no-ops"
(spec §4.6).  The boolean reports whether the stop handle was
invoked. -/
def BindingManager.Delete (m : BindingManager) (b : Binding) : BindingManager × Bool :=
  if b ∈ m.bindings then (⟨m.bindings.erase b, m.gauge - 1⟩, true)
  else (m, false)

/-- One mutation of a binding manager. -/
inductive BMOp : Type
  | add (b : Binding) : BMOp
  | del (b : Binding) : BMOp
deriving DecidableEq, Repr

/-- Run a completed sequence of Add/Delete operations from a fresh
manager. -/
def bmRun (ops : List BMOp) : BindingManager :=
  ops.foldl
    (fun m op =>
      match op with
      | .add b => (m.Add b).1
      | .del b => (m.Delete b).1)
    NewBindingManager

/- ### Binding fetcher (spec §4.2, §6.1)

The implementation (`scheduler/internal/cupsprovider.BindingFetcher`)
is not under `src/`; only its tests are.  Modelled from the spec: the
getter yields either a transport failure or a response carrying a
status code and a body, the body being either malformed JSON or a
well-formed `results` document already shaped as `AppBindings`. -/

inductive RegistryBody : Type
  | malformed : RegistryBody
  | wellFormed (results : AppBindings) : RegistryBody

structure RegistryResponse where
  status : Nat
  body : RegistryBody

/-- Modelled from the spec: `FetchBindings` — "on a 2xx response with a
well-formed JSON body ... returns an `AppBindings` mapping.  On
non-2xx, malformed JSON, or transport failure, returns an error"
(spec §4.2). -/
def FetchBindings : Except Unit RegistryResponse → Except Unit AppBindings
  | .error _ => .error ()
  | .ok r =>
    if 200 ≤ r.status ∧ r.status ≤ 299 then
      match r.body with
      | .malformed => .error ()
      | .wellFormed results => .ok results
    else .error ()

/- ### Ingress client pool (spec §4.7)

The implementation (`adapter/internal/ingress.ClientManager`) is not
under `src/`; only its tests are.  Modelled from the spec: the pool
holds one slot per configured connection, each slot holding either a
live client or the placeholder handed out before a connect succeeds
(or after one fails); `Next` hands out slots round-robin. -/

inductive IngressClient : Type
  | live (id : Nat) : IngressClient
  | placeholder : IngressClient
deriving DecidableEq, Repr

structure ClientManager where
  clients : List IngressClient
  nextIdx : Nat
deriving DecidableEq, Repr

/-- Modelled from the spec: a freshly constructed manager — every slot
starts as the placeholder a caller may receive "before first connect"
(spec §4.7). -/
def NewClientManager (n : Nat) : ClientManager :=
  ⟨List.replicate n .placeholder, 0⟩

/-- Replace one slot's client: a successful connect installs a live
client; a failed replacement or an invalidation leaves the placeholder
until the retry succeeds. -/
def ClientManager.setSlot (s : ClientManager) (i : Nat) (c : IngressClient) : ClientManager :=
  ⟨s.clients.set i c, s.nextIdx⟩

/-- Modelled from the spec: `Next()` — "returns the next client in
round-robin order" (spec §4.7). -/
def ClientManager.Next (s : ClientManager) : Option IngressClient × ClientManager :=
  match s.clients[s.nextIdx % s.clients.length]? with
  | some c => (some c, ⟨s.clients, s.nextIdx + 1⟩)
  | none => (none, s)

/-- States of the ingress pool reachable from construction with pool
size `n`: slot replacements (connects, failures, invalidations,
rotations) and round-robin advances. -/
inductive CMReach (n : Nat) : ClientManager → Prop
  | init : CMReach n (NewClientManager n)
  | replace {s : ClientManager} (i : Nat) (c : IngressClient) :
      CMReach n s → CMReach n (s.setSlot i c)
  | advance {s : ClientManager} :
      CMReach n s → CMReach n (ClientManager.Next s).2

/-- An argument list supplying every flag that has no default, with
valid values, and omitting `health`, `pprof` and the blacklist. -/
def c7Args : List (String × String) :=
  [("api-url", "https://api.example.com"), ("api-ca", "api-ca.pem"),
   ("api-cert", "api.crt"), ("api-key", "api.key"), ("api-cn", "apiCN"),
   ("ca", "ca.pem"), ("cert", "adapter.crt"), ("key", "adapter.key"),
   ("adapter-cn", "adapterCN"), ("adapter-port", "4443"),
   ("adapter-ips", "10.0.0.1")]

/- ## Helper lemmas -/

theorem mem_deleteDeltaFrom (desired : AppBindings) (b : Binding) :
    ∀ (slots : BindingList) (j i : Nat),
      ((i, b) ∈ deleteDeltaFrom desired j slots ↔
        ∃ k, k < slots.length ∧ i = j + k ∧ b ∈ slotAt slots k ∧
          presentInDesired desired b = false) := by
  intro slots
  induction slots with
  | nil => intro j i; simp [deleteDeltaFrom]
  | cons slot rest ih =>
    intro j i
    simp only [deleteDeltaFrom, List.mem_append, List.mem_map, List.mem_filter,
      ih (j + 1)]
    constructor
    · rintro (⟨b', ⟨hb', hp⟩, heq⟩ | ⟨k, hk, hi, hmem, hp⟩)
      · obtain ⟨hj, hb⟩ := Prod.mk.injEq _ _ _ _ ▸ heq
        subst hb
        refine ⟨0, by simp, by omega, ?_, by simpa using hp⟩
        simpa [slotAt] using hb'
      · exact ⟨k + 1, by simpa using hk, by omega, by simpa [slotAt] using hmem, hp⟩
    · rintro ⟨k, hk, hi, hmem, hp⟩
      cases k with
      | zero =>
        left
        exact ⟨b, ⟨by simpa [slotAt] using hmem, by simpa using hp⟩, by simp [hi]⟩
      | succ k =>
        right
        exact ⟨k, by simpa using hk, by omega, by simpa [slotAt] using hmem, hp⟩

/- ## Claim theorems -/

/-- C2: the Delete delta calls DeleteBinding exactly for each binding
appearing in some adapter's slot of the actual list but absent from the
desired set, on every adapter whose slot contains it, and never for a
binding present in the desired set — whatever the actual list (empty
slots included) looks like. -/
theorem c2_delete_delta_exact (actual : BindingList) (desired : AppBindings)
    (i : Nat) (b : Binding) :
    (i, b) ∈ DeleteDelta actual desired ↔
      (i < actual.length ∧ b ∈ slotAt actual i ∧
        presentInDesired desired b = false) := by
  have h := mem_deleteDeltaFrom desired b actual 0 i
  rw [DeleteDelta, h]
  constructor
  · rintro ⟨k, hk, hi, hmem, hp⟩
    exact ⟨by omega, by simpa [hi] using hmem, hp⟩
  · rintro ⟨hi, hmem, hp⟩
    exact ⟨i, hi, by omega, hmem, hp⟩

/-- Witness for C2: on a pool where adapter 0 reports a stale binding
and adapter 1 reports empty, the stale binding is deleted from adapter
0 and the desired binding is never deleted. -/
theorem c2_witness :
    ((0, (⟨"app-id", "org.space.app", "stale://url"⟩ : Binding)) ∈
        DeleteDelta [[⟨"app-id", "org.space.app", "stale://url"⟩], []]
          [("app-id", ⟨"org.space.app", ["syslog://my-drain-url"]⟩)])
    ∧ ¬ ((0, (⟨"app-id", "org.space.app", "syslog://my-drain-url"⟩ : Binding)) ∈
        DeleteDelta [[⟨"app-id", "org.space.app", "syslog://my-drain-url"⟩], []]
          [("app-id", ⟨"org.space.app", ["syslog://my-drain-url"]⟩)]) := by
  constructor
  · exact (c2_delete_delta_exact _ _ 0 _).mpr (by refine ⟨by decide, by decide, by decide⟩)
  · intro hmem
    have h := (c2_delete_delta_exact
      [[⟨"app-id", "org.space.app", "syslog://my-drain-url"⟩], []]
      [("app-id", ⟨"org.space.app", ["syslog://my-drain-url"]⟩)] 0
      ⟨"app-id", "org.space.app", "syslog://my-drain-url"⟩).mp hmem
    exact absurd h.2.2 (by decide)

/-- C3: `List` returns one slot per adapter in pool order, a failing
adapter contributing an empty set at its index rather than removing
the slot, and the aggregate error is raised precisely when every
adapter failed. -/
theorem c3_service_list (results : List (Option (List Binding))) :
    ((ServiceList results).1.length = results.length)
    ∧ (∀ i, results.get? i = some none → (ServiceList results).1.get? i = some [])
    ∧ (∀ i bs, results.get? i = some (some bs) →
        (ServiceList results).1.get? i = some bs)
    ∧ ((ServiceList results).2 = true ↔ ∀ r ∈ results, r = none) := by
  refine ⟨by simp [ServiceList], ?_, ?_, ?_⟩
  · intro i hi
    rw [List.get?_eq_getElem?] at hi
    simp [ServiceList, List.get?_map, hi]
  · intro i bs hi
    rw [List.get?_eq_getElem?] at hi
    simp [ServiceList, List.get?_map, hi]
  · simp only [ServiceList, beq_iff_eq, List.countP_eq_length]
    constructor
    · intro h r hr
      simpa [Option.isNone_iff_eq_none] using h r hr
    · intro h r hr
      simp [h r hr]

/-- Witness for C3 at a two-adapter pool where the second adapter's
List fails: the result keeps both slots, the failed slot is empty, and
no aggregate error is raised unless both fail. -/
theorem c3_witness :
    ((ServiceList [some [⟨"a", "h", "d"⟩], none]).1.length = 2)
    ∧ ((ServiceList [some [⟨"a", "h", "d"⟩], none]).1.get? 1 = some [])
    ∧ ((ServiceList [(none : Option (List Binding)), none]).2 = true) := by
  refine ⟨?_, ?_, ?_⟩
  · have h := (c3_service_list [some [⟨"a", "h", "d"⟩], none]).1
    simpa using h
  · exact (c3_service_list [some [⟨"a", "h", "d"⟩], none]).2.1 1 (by rfl)
  · exact (c3_service_list [none, none]).2.2.2.mpr (by simp)

/-- C4: adding the same binding twice to a fresh manager leaves one
element and starts one subscription; deleting a binding twice stops it
once; deleting an absent binding is a no-op. -/
theorem c4_add_delete_idempotent (b : Binding) (m : BindingManager)
    (hnd : m.bindings.Nodup) :
    ((BindingManager.Add (BindingManager.Add NewBindingManager b).1 b).1.bindings.length = 1
      ∧ (BindingManager.Add NewBindingManager b).2 = true
      ∧ (BindingManager.Add (BindingManager.Add NewBindingManager b).1 b).2 = false)
    ∧ (b ∈ m.bindings →
        (BindingManager.Delete m b).2 = true
          ∧ (BindingManager.Delete (BindingManager.Delete m b).1 b).2 = false)
    ∧ (b ∉ m.bindings → BindingManager.Delete m b = (m, false)) := by
  refine ⟨?_, ?_, ?_⟩
  · simp [BindingManager.Add, NewBindingManager]
  · intro hmem
    have hnot : b ∉ m.bindings.erase b := by
      intro hc
      exact absurd ((List.Nodup.mem_erase_iff hnd).mp hc).1 (by simp)
    constructor
    · simp [BindingManager.Delete, hmem]
    · simp [BindingManager.Delete, hmem, hnot]
  · intro hnot
    simp [BindingManager.Delete, hnot]

/-- Witness for C4 at a concrete binding and a concrete manager
containing it. -/
theorem c4_witness :
    (((⟨[⟨"some-id", "some-hostname", "some.url"⟩], 1⟩ : BindingManager).bindings.Nodup)
      ∧ (⟨"some-id", "some-hostname", "some.url"⟩ : Binding) ∈
          (⟨[⟨"some-id", "some-hostname", "some.url"⟩], 1⟩ : BindingManager).bindings)
    ∧ (BindingManager.Add
        (BindingManager.Add NewBindingManager ⟨"some-id", "some-hostname", "some.url"⟩).1
        ⟨"some-id", "some-hostname", "some.url"⟩).1.bindings.length = 1
    ∧ (BindingManager.Delete (⟨[⟨"some-id", "some-hostname", "some.url"⟩], 1⟩ : BindingManager)
        ⟨"some-id", "some-hostname", "some.url"⟩).2 = true := by
  refine ⟨⟨by simp, by simp⟩, ?_, ?_⟩
  · exact (c4_add_delete_idempotent ⟨"some-id", "some-hostname", "some.url"⟩
      ⟨[⟨"some-id", "some-hostname", "some.url"⟩], 1⟩ (by simp)).1.1
  · exact ((c4_add_delete_idempotent ⟨"some-id", "some-hostname", "some.url"⟩
      ⟨[⟨"some-id", "some-hostname", "some.url"⟩], 1⟩ (by simp)).2.1 (by simp)).1

/-- The gauge step of every manager operation preserves the gauge =
cardinality invariant. -/
theorem bmRun_gauge_aux (ops : List BMOp) :
    ∀ m : BindingManager, m.gauge = m.bindings.length →
      (ops.foldl
        (fun m op =>
          match op with
          | .add b => (BindingManager.Add m b).1
          | .del b => (BindingManager.Delete m b).1) m).gauge =
      (ops.foldl
        (fun m op =>
          match op with
          | .add b => (BindingManager.Add m b).1
          | .del b => (BindingManager.Delete m b).1) m).bindings.length := by
  induction ops with
  | nil => intro m hm; simpa using hm
  | cons op rest ih =>
    intro m hm
    simp only [List.foldl_cons]
    apply ih
    cases op with
    | add b =>
      by_cases hmem : b ∈ m.bindings
      · simpa [BindingManager.Add, hmem] using hm
      · simp [BindingManager.Add, hmem, hm]
    | del b =>
      by_cases hmem : b ∈ m.bindings
      · have hpos : 0 < m.bindings.length :=
          List.length_pos.mpr (by intro h; rw [h] at hmem; simp at hmem)
        have herase : (m.bindings.erase b).length = m.bindings.length - 1 :=
          List.length_erase_of_mem hmem
        simp [BindingManager.Delete, hmem, hm, herase]
        omega
      · simpa [BindingManager.Delete, hmem] using hm

/-- C5: after every completed sequence of Add/Delete operations the
`drain_bindings` gauge equals the cardinality of the manager's active
binding set. -/
theorem c5_gauge_invariant (ops : List BMOp) :
    (bmRun ops).gauge = ((bmRun ops).bindings.length : Int) :=
  bmRun_gauge_aux ops NewBindingManager (by simp [NewBindingManager])

/-- C6: the fetcher succeeds exactly on a 2xx well-formed response, in
which case it returns the parsed mapping; transport failures, non-2xx
statuses and malformed bodies all yield errors. -/
theorem c6_fetch_bindings (g : Except Unit RegistryResponse) :
    ((FetchBindings g).isOk = true ↔
      ∃ r results, g = .ok r ∧ 200 ≤ r.status ∧ r.status ≤ 299 ∧
        r.body = .wellFormed results)
    ∧ (∀ r results, g = .ok r → 200 ≤ r.status → r.status ≤ 299 →
        r.body = .wellFormed results → FetchBindings g = .ok results) := by
  constructor
  · cases g with
    | error e =>
      simp [FetchBindings, Except.isOk, Except.toBool]
    | ok r =>
      by_cases hs : 200 ≤ r.status ∧ r.status ≤ 299
      · cases hb : r.body with
        | malformed =>
          simp only [FetchBindings, hs, if_true, hb]
          constructor
          · intro h; simp [Except.isOk, Except.toBool] at h
          · rintro ⟨r', results, heq, _, _, hbody⟩
            cases heq; rw [hb] at hbody; cases hbody
        | wellFormed results =>
          simp only [FetchBindings, hs, if_true, hb]
          constructor
          · intro _
            exact ⟨r, results, rfl, hs.1, hs.2, hb⟩
          · intro _; simp [Except.isOk, Except.toBool]
      · simp only [FetchBindings, hs, if_false]
        constructor
        · intro h; simp [Except.isOk, Except.toBool] at h
        · rintro ⟨r', results, heq, h200, h299, hbody⟩
          cases heq
          exact absurd ⟨h200, h299⟩ hs
  · intro r results heq h200 h299 hbody
    subst heq
    simp [FetchBindings, hbody, h200, h299]

/-- Witness for C6: a 200 response with a well-formed one-app body
yields exactly that mapping, and its success is certified through the
characterization. -/
theorem c6_witness :
    (FetchBindings (.ok ⟨200, .wellFormed [("app-1", ⟨"org.space.app", ["syslog://d"]⟩)]⟩)
        = .ok [("app-1", ⟨"org.space.app", ["syslog://d"]⟩)])
    ∧ (FetchBindings (.ok ⟨200, .wellFormed [("app-1", ⟨"org.space.app", ["syslog://d"]⟩)]⟩)).isOk
        = true := by
  constructor
  · exact (c6_fetch_bindings _).2 ⟨200, .wellFormed [("app-1", ⟨"org.space.app", ["syslog://d"]⟩)]⟩
      [("app-1", ⟨"org.space.app", ["syslog://d"]⟩)] rfl (by decide) (by decide) rfl
  · exact (c6_fetch_bindings _).1.mpr
      ⟨⟨200, .wellFormed [("app-1", ⟨"org.space.app", ["syslog://d"]⟩)]⟩,
        [("app-1", ⟨"org.space.app", ["syslog://d"]⟩)], rfl, by decide, by decide, rfl⟩

/-- Every reachable pool state keeps exactly one slot per configured
connection. -/
theorem cmReach_length {n : Nat} {s : ClientManager} (h : CMReach n s) :
    s.clients.length = n := by
  induction h with
  | init => simp [NewClientManager]
  | replace i c _ ih => simpa [ClientManager.setSlot] using ih
  | advance hr ih =>
    rename_i s'
    cases hg : s'.clients[s'.nextIdx % s'.clients.length]? with
    | none => simpa [ClientManager.Next, hg] using ih
    | some c => simpa [ClientManager.Next, hg] using ih

/-- C9: in every reachable state of a nonempty pool — before the first
successful connect and while every connector attempt fails included —
`Next()` returns a client handle (live or placeholder), never an empty
one. -/
theorem c9_next_never_empty (n : Nat) (s : ClientManager) (hn : 0 < n)
    (hr : CMReach n s) :
    ∃ c, (ClientManager.Next s).1 = some c := by
  have hl : s.clients.length = n := cmReach_length hr
  have hlt : s.nextIdx % s.clients.length < s.clients.length :=
    Nat.mod_lt _ (by omega)
  cases hg : s.clients[s.nextIdx % s.clients.length]? with
  | none =>
    have := List.getElem?_eq_none_iff.mp hg
    omega
  | some c => exact ⟨c, by simp [ClientManager.Next, hg]⟩

/-- Witness for C9: the freshly constructed pool of size 1 (no connect
has succeeded yet) still hands out a handle — the placeholder. -/
theorem c9_witness :
    ∃ c, (ClientManager.Next (NewClientManager 1)).1 = some c :=
  c9_next_never_empty 1 (NewClientManager 1) (by decide) CMReach.init

/-- C7 (amended): validation collects, in visit order, exactly the
flags other than `blacklist-ranges` whose value renders empty, and
whenever that list is nonempty `LoadConfig` fails with an error naming
precisely those flags.  Because `health` and `pprof` carry the
defaults ":8080" and ":6060" (and the boolean flag renders
"true"/"false"), omitting them never makes them missing. -/
theorem c7_load_config_validation (args : List (String × String)) :
    (∀ n, n ∈ missingFlags (applyArgs args) ↔
      (n ∈ visitOrder ∧ n ≠ "blacklist-ranges" ∧ flagValue (applyArgs args) n = ""))
    ∧ (missingFlags (applyArgs args) ≠ [] →
        LoadConfig args = .ok (.error (.validation (missingFlags (applyArgs args))))) := by
  constructor
  · intro n
    simp [missingFlags, List.mem_filter, Bool.and_eq_true, bne_iff_ne, beq_iff_eq,
      and_assoc]
  · intro h
    cases hm : missingFlags (applyArgs args) with
    | nil => exact absurd hm h
    | cons a l => simp [LoadConfig, hm]

/-- Witness for C7: with no arguments at all, every defaultless flag is
reported missing — and neither `health` nor `pprof` is among them. -/
theorem c7_witness :
    missingFlags (applyArgs []) ≠ [] ∧
    LoadConfig [] = .ok (.error (.validation
      ["adapter-cn", "adapter-ips", "adapter-port", "api-ca", "api-cert",
       "api-cn", "api-key", "api-url", "ca", "cert", "key"])) := by
  have h := (c7_load_config_validation []).2 (by decide)
  exact ⟨by decide, by rw [h]; decide⟩

/-- C7 counterexample: the claim says every option of the CLI surface,
health and pprof hostports included, is required; yet an argument list
supplying everything except `health` and `pprof` loads successfully,
because those two flags have non-empty defaults and are never reported
missing. -/
theorem c7_counterexample :
    ((c7Args.map Prod.fst).contains "health" = false)
    ∧ ((c7Args.map Prod.fst).contains "pprof" = false)
    ∧ loadConfigSucceeds c7Args = true :=
  ⟨by decide, by decide, by decide⟩

/-- C8 (code bug): a blacklist entry with no `-` separator makes
`parseBlacklist` read `ips[1]` out of range — a runtime panic — instead
of the error return the claim (and spec §7) requires; an entry that
does carry a separator but is reversed is rejected with an error, as
claimed. -/
theorem c8_no_separator_panics :
    parseBlacklist "1.2.3.4" = GoResult.panics
    ∧ parseBlacklist "10.0.0.255-10.0.0.0" =
        GoResult.ok (.error
          "Failed to parse blacklist ip ranges: invalid IP range: start greater than end") :=
  ⟨by decide, by decide⟩

/-- C10: an empty `blacklist-ranges` string parses successfully into
zero IP ranges — the single empty entry produced by splitting the
empty string is discarded rather than parsed. -/
theorem c10_empty_blacklist :
    parseBlacklist "" = GoResult.ok (Except.ok ⟨[]⟩) := by decide

/- ## Helper lemmas for the Create delta -/

theorem length_filter_not_partition (l : List Nat) (p : Nat → Bool) :
    (l.filter p).length + (l.filter (fun x => !(p x))).length = l.length := by
  induction l with
  | nil => simp
  | cons x xs ih => cases hx : p x <;> simp [List.filter_cons, hx] <;> omega

theorem holders_le (pool : Nat) (A : BindingList) (b : Binding) :
    holders pool A b ≤ pool := by
  have h := List.length_filter_le (fun i => decide (b ∈ slotAt A i)) (List.range pool)
  simpa [holders] using h

theorem length_nonHolders (pool : Nat) (A : BindingList) (b : Binding) :
    (nonHolders pool A b).length = pool - holders pool A b := by
  have hpart := length_filter_not_partition (List.range pool)
    (fun i => decide (b ∈ slotAt A i))
  have hcongr : (List.range pool).filter (fun i => decide (b ∉ slotAt A i)) =
      (List.range pool).filter (fun x => !(decide (b ∈ slotAt A x))) := by
    apply List.filter_congr
    intro x _
    simp [decide_not]
  rw [nonHolders, hcongr]
  simp only [List.length_range] at hpart
  have := holders_le pool A b
  unfold holders at *
  omega

theorem filter_createsFor_self (pool : Nat) (A : BindingList) (b : Binding) :
    (createsFor pool A b).filter (fun c => decide (c.2 = b)) = createsFor pool A b := by
  rw [List.filter_eq_self]
  intro c hc
  obtain ⟨i, _, rfl⟩ := List.mem_map.mp hc
  simp

theorem filter_createsFor_ne (pool : Nat) (A : BindingList) (b b' : Binding)
    (hne : b' ≠ b) :
    (createsFor pool A b').filter (fun c => decide (c.2 = b)) = [] := by
  rw [List.filter_eq_nil_iff]
  intro c hc
  obtain ⟨i, _, rfl⟩ := List.mem_map.mp hc
  simp [hne]

theorem filter_createsForDrains_eq_nil (pool : Nat) (A : BindingList) (a h : String)
    (ds : List String) (b : Binding) (hnot : ∀ d ∈ ds, Binding.mk a h d ≠ b) :
    (createsForDrains pool A a h ds).filter (fun c => decide (c.2 = b)) = [] := by
  induction ds with
  | nil => simp [createsForDrains]
  | cons d ds ih =>
    simp only [createsForDrains, List.filter_append]
    rw [filter_createsFor_ne pool A b ⟨a, h, d⟩ (hnot d (by simp)),
      ih (fun d' hd' => hnot d' (by simp [hd'])), List.append_nil]

theorem filter_createsForDrains_eq (pool : Nat) (A : BindingList) (a h d : String)
    (ds : List String) (hd : d ∈ ds) (hnd : ds.Nodup) :
    (createsForDrains pool A a h ds).filter (fun c => decide (c.2 = Binding.mk a h d)) =
      createsFor pool A ⟨a, h, d⟩ := by
  induction ds with
  | nil => cases hd
  | cons d' ds ih =>
    simp only [createsForDrains, List.filter_append]
    rcases List.mem_cons.mp hd with heq | hmem
    · subst heq
      rw [filter_createsFor_self]
      have hnotin : d ∉ ds := (List.nodup_cons.mp hnd).1
      rw [filter_createsForDrains_eq_nil pool A a h ds ⟨a, h, d⟩
        (fun d'' hd'' heq' => hnotin (by
          have : d'' = d := by
            have := congrArg Binding.drain heq'
            simpa using this
          rwa [this] at hd'')), List.append_nil]
    · have hne : d' ≠ d := by
        rintro rfl
        exact (List.nodup_cons.mp hnd).1 hmem
      rw [filter_createsFor_ne pool A ⟨a, h, d⟩ ⟨a, h, d'⟩ (by simp [hne]),
        List.nil_append]
      exact ih hmem (List.nodup_cons.mp hnd).2

theorem filter_CreateDelta_eq_nil (pool : Nat) (A : BindingList) (desired : AppBindings)
    (b : Binding) (hk : b.appId ∉ desired.map Prod.fst) :
    (CreateDelta pool A desired).filter (fun c => decide (c.2 = b)) = [] := by
  induction desired with
  | nil => simp [CreateDelta]
  | cons e rest ih =>
    obtain ⟨a', ab'⟩ := e
    have h1 : (createsForDrains pool A a' ab'.hostname ab'.drains).filter
        (fun c => decide (c.2 = b)) = [] := by
      apply filter_createsForDrains_eq_nil
      intro d' _ heq
      apply hk
      have : b.appId = a' := by
        have := congrArg Binding.appId heq
        simpa using this.symm
      simp [this]
    have h2 : (CreateDelta pool A rest).filter (fun c => decide (c.2 = b)) = [] := by
      apply ih
      intro hc
      exact hk (by simp [hc])
    simp only [CreateDelta, List.filter_append, h1, h2, List.append_nil]

theorem filter_CreateDelta_eq (pool : Nat) (A : BindingList) (desired : AppBindings)
    (a d : String) (ab : AppBinding)
    (hkeys : (desired.map Prod.fst).Nodup) (hmem : (a, ab) ∈ desired)
    (hd : d ∈ ab.drains) (hnd : ab.drains.Nodup) :
    (CreateDelta pool A desired).filter
        (fun c => decide (c.2 = Binding.mk a ab.hostname d)) =
      createsFor pool A ⟨a, ab.hostname, d⟩ := by
  induction desired with
  | nil => cases hmem
  | cons e rest ih =>
    obtain ⟨a', ab'⟩ := e
    have hkeys' : a' ∉ rest.map Prod.fst ∧ (rest.map Prod.fst).Nodup := by
      constructor
      · exact (List.nodup_cons.mp (by simpa using hkeys)).1
      · exact (List.nodup_cons.mp (by simpa using hkeys)).2
    simp only [CreateDelta, List.filter_append]
    rcases List.mem_cons.mp hmem with heq | hmem'
    · injection heq with ha hab
      subst ha
      subst hab
      rw [filter_createsForDrains_eq pool A a ab.hostname d ab.drains hd hnd]
      rw [filter_CreateDelta_eq_nil pool A rest ⟨a, ab.hostname, d⟩
        (by simpa using hkeys'.1), List.append_nil]
    · have hne : a' ≠ a := by
        rintro rfl
        exact hkeys'.1 (List.mem_map.mpr ⟨(a', ab), hmem', rfl⟩)
      have h1 : (createsForDrains pool A a' ab'.hostname ab'.drains).filter
          (fun c => decide (c.2 = Binding.mk a ab.hostname d)) = [] := by
        apply filter_createsForDrains_eq_nil
        intro d' _ heq'
        have : a' = a := by
          have := congrArg Binding.appId heq'
          simpa using this
        exact hne this
      rw [h1, List.nil_append]
      exact ih hkeys'.2 hmem'

theorem slotAt_padTo (A : BindingList) (n j : Nat) :
    slotAt (padTo A n) j = slotAt A j := by
  simp only [slotAt, padTo, List.getD_eq_getElem?_getD, List.getElem?_append]
  by_cases hj : j < A.length
  · simp [hj]
  · rw [if_neg hj, List.getElem?_replicate]
    have h2 : A[j]? = none := by
      rw [List.getElem?_eq_none_iff]
      omega
    rw [h2]
    by_cases hjr : j - A.length < n - A.length <;> simp [hjr]

theorem mem_slotAt_applyCreate (A : BindingList) (c : Nat × Binding) (b : Binding)
    (j : Nat) :
    b ∈ slotAt (applyCreate A c) j ↔
      (b ∈ slotAt A j ∨ (j = c.1 ∧ b = c.2)) := by
  by_cases hj : c.1 = j
  · subst hj
    have hlen : c.1 < (padTo A (c.1 + 1)).length := by
      simp only [padTo, List.length_append, List.length_replicate]
      omega
    have hslot : slotAt (applyCreate A c) c.1 = c.2 :: slotAt A c.1 := by
      show ((padTo A (c.1 + 1)).set c.1 (c.2 :: slotAt A c.1)).getD c.1 [] = _
      rw [List.getD_eq_getElem?_getD, List.getElem?_set_eq hlen, Option.getD_some]
    rw [hslot, List.mem_cons]
    constructor
    · rintro (rfl | hmem)
      · exact .inr ⟨rfl, rfl⟩
      · exact .inl hmem
    · rintro (hmem | ⟨-, rfl⟩)
      · exact .inr hmem
      · exact .inl rfl
  · have hslot : slotAt (applyCreate A c) j = slotAt A j := by
      show ((padTo A (c.1 + 1)).set c.1 (c.2 :: slotAt A c.1)).getD j [] = _
      rw [List.getD_eq_getElem?_getD, List.getElem?_set_ne hj,
        ← List.getD_eq_getElem?_getD]
      exact slotAt_padTo A (c.1 + 1) j
    rw [hslot]
    constructor
    · exact fun h => .inl h
    · rintro (h | ⟨rfl, -⟩)
      · exact h
      · exact absurd rfl hj

theorem mem_slotAt_applyCreates (cs : List (Nat × Binding)) :
    ∀ (A : BindingList) (b : Binding) (j : Nat),
      b ∈ slotAt (applyCreates A cs) j ↔ (b ∈ slotAt A j ∨ (j, b) ∈ cs) := by
  induction cs with
  | nil => intro A b j; simp [applyCreates]
  | cons c cs ih =>
    intro A b j
    have hstep : applyCreates A (c :: cs) = applyCreates (applyCreate A c) cs := by
      simp [applyCreates]
    rw [hstep, ih, mem_slotAt_applyCreate, List.mem_cons, Prod.ext_iff]
    tauto

theorem length_filter_or_disjoint (l : List Nat) (p q : Nat → Bool)
    (hdis : ∀ i ∈ l, ¬(p i = true ∧ q i = true)) :
    (l.filter (fun i => p i || q i)).length =
      (l.filter p).length + (l.filter q).length := by
  induction l with
  | nil => simp
  | cons x xs ih =>
    have hx := hdis x (by simp)
    have ihx := ih (fun i hi => hdis i (by simp [hi]))
    by_cases hp : p x = true
    · have hq : q x = false := by
        cases hqq : q x
        · rfl
        · exact absurd ⟨hp, hqq⟩ hx
      simp only [List.filter_cons, hp, hq, Bool.true_or, if_pos, List.length_cons, ihx]
      simp
      omega
    · have hp' : p x = false := by simpa using hp
      cases hq : q x <;>
        simp [List.filter_cons, hp', hq, ihx] <;> omega

theorem length_filter_mem_sublist {l L : List Nat} (hs : l.Sublist L) :
    L.Nodup → (L.filter (fun i => decide (i ∈ l))).length = l.length := by
  induction hs with
  | slnil => intro _; simp
  | @cons l1 L1 a hsub ih =>
    intro hn
    obtain ⟨ha, hn'⟩ := List.nodup_cons.mp hn
    have hal : a ∉ l1 := fun hc => ha (hsub.subset hc)
    simp only [List.filter_cons, decide_eq_true_eq]
    rw [if_neg hal]
    exact ih hn'
  | @cons₂ l1 L1 a hsub ih =>
    intro hn
    obtain ⟨ha, hn'⟩ := List.nodup_cons.mp hn
    have hcongr : L1.filter (fun i => decide (i ∈ a :: l1)) =
        L1.filter (fun i => decide (i ∈ l1)) := by
      apply List.filter_congr
      intro x hx
      have hxa : x ≠ a := fun hc => ha (hc ▸ hx)
      simp [List.mem_cons, hxa]
    have hhead : (a :: L1).filter (fun i => decide (i ∈ a :: l1)) =
        a :: L1.filter (fun i => decide (i ∈ a :: l1)) := by
      rw [List.filter_cons, if_pos (by simp)]
    rw [hhead, List.length_cons, hcongr, ih hn', List.length_cons]

/-- C1: when the desired set contains binding b (with distinct desired
keys and deduplicated drains, as the fetcher produces) and the actual
view shows b on k adapters of a pool of size `pool`, the Create delta
issues exactly `min 2 pool - k` (that is, max(0, min(2,|pool|) − k))
CreateBinding calls for b — the first adapters in pool order whose
slots do not already contain b —, issues none when k ≥ 2, and issues
none for b when run again on the state with those creates applied. -/
theorem c1_create_delta (pool : Nat) (actual : BindingList) (desired : AppBindings)
    (a d : String) (ab : AppBinding)
    (hkeys : (desired.map Prod.fst).Nodup) (hmem : (a, ab) ∈ desired)
    (hd : d ∈ ab.drains) (hnd : ab.drains.Nodup) :
    (((CreateDelta pool actual desired).filter
        (fun c => decide (c.2 = Binding.mk a ab.hostname d))).length
      = min 2 pool - holders pool actual ⟨a, ab.hostname, d⟩)
    ∧ ((CreateDelta pool actual desired).filter
        (fun c => decide (c.2 = Binding.mk a ab.hostname d))
      = ((nonHolders pool actual ⟨a, ab.hostname, d⟩).take
          (min 2 pool - holders pool actual ⟨a, ab.hostname, d⟩)).map
            (fun i => (i, ⟨a, ab.hostname, d⟩)))
    ∧ (∀ c ∈ (CreateDelta pool actual desired).filter
          (fun c => decide (c.2 = Binding.mk a ab.hostname d)),
        Binding.mk a ab.hostname d ∉ slotAt actual c.1)
    ∧ List.Pairwise (fun x y => x.1 < y.1)
        ((CreateDelta pool actual desired).filter
          (fun c => decide (c.2 = Binding.mk a ab.hostname d)))
    ∧ (2 ≤ holders pool actual ⟨a, ab.hostname, d⟩ →
        (CreateDelta pool actual desired).filter
          (fun c => decide (c.2 = Binding.mk a ab.hostname d)) = [])
    ∧ ((CreateDelta pool
          (applyCreates actual (CreateDelta pool actual desired)) desired).filter
        (fun c => decide (c.2 = Binding.mk a ab.hostname d)) = []) := by
  have hchar := filter_CreateDelta_eq pool actual desired a d ab hkeys hmem hd hnd
  have hkle := holders_le pool actual ⟨a, ab.hostname, d⟩
  have hnhlen := length_nonHolders pool actual ⟨a, ab.hostname, d⟩
  have hmle : min 2 pool - holders pool actual ⟨a, ab.hostname, d⟩ ≤
      pool - holders pool actual ⟨a, ab.hostname, d⟩ :=
    Nat.sub_le_sub_right (Nat.min_le_right 2 pool) _
  have htakensub : ((nonHolders pool actual ⟨a, ab.hostname, d⟩).take
      (min 2 pool - holders pool actual ⟨a, ab.hostname, d⟩)).Sublist
        (List.range pool) :=
    (List.take_sublist _ _).trans (List.filter_sublist _)
  have htakenmem : ∀ i ∈ (nonHolders pool actual ⟨a, ab.hostname, d⟩).take
      (min 2 pool - holders pool actual ⟨a, ab.hostname, d⟩),
      Binding.mk a ab.hostname d ∉ slotAt actual i := by
    intro i hi
    have hi' : i ∈ nonHolders pool actual ⟨a, ab.hostname, d⟩ :=
      (List.take_sublist _ _).subset hi
    have := (List.mem_filter.mp hi').2
    simpa using this
  have hlen : ((CreateDelta pool actual desired).filter
      (fun c => decide (c.2 = Binding.mk a ab.hostname d))).length
      = min 2 pool - holders pool actual ⟨a, ab.hostname, d⟩ := by
    rw [hchar]
    unfold createsFor
    rw [List.length_map, List.length_take, hnhlen]
    exact min_eq_left hmle
  have hinmem : ∀ i : Nat, ((i, Binding.mk a ab.hostname d) ∈
      CreateDelta pool actual desired ↔
        i ∈ (nonHolders pool actual ⟨a, ab.hostname, d⟩).take
          (min 2 pool - holders pool actual ⟨a, ab.hostname, d⟩)) := by
    intro i
    constructor
    · intro hin
      have hfil : (i, Binding.mk a ab.hostname d) ∈
          (CreateDelta pool actual desired).filter
            (fun c => decide (c.2 = Binding.mk a ab.hostname d)) :=
        List.mem_filter.mpr ⟨hin, by simp⟩
      rw [hchar] at hfil
      unfold createsFor at hfil
      obtain ⟨i', hi', heq⟩ := List.mem_map.mp hfil
      have : i' = i := congrArg Prod.fst heq
      rwa [this] at hi'
    · intro hin
      have : (i, Binding.mk a ab.hostname d) ∈
          createsFor pool actual ⟨a, ab.hostname, d⟩ := by
        unfold createsFor
        exact List.mem_map.mpr ⟨i, hin, rfl⟩
      rw [← hchar] at this
      exact (List.mem_filter.mp this).1
  refine ⟨hlen, by rw [hchar]; rfl, ?_, ?_, ?_, ?_⟩
  · intro c hc
    rw [hchar] at hc
    unfold createsFor at hc
    obtain ⟨i, hi, rfl⟩ := List.mem_map.mp hc
    exact htakenmem i hi
  · rw [hchar]
    unfold createsFor
    rw [List.pairwise_map]
    exact List.Pairwise.sublist htakensub (List.pairwise_lt_range pool)
  · intro hk2
    rw [hchar]
    unfold createsFor
    have hz : min 2 pool - holders pool actual ⟨a, ab.hostname, d⟩ = 0 := by
      have := Nat.min_le_left 2 pool
      omega
    rw [hz, List.take_zero, List.map_nil]
  · rw [filter_CreateDelta_eq pool
      (applyCreates actual (CreateDelta pool actual desired)) desired a d ab
      hkeys hmem hd hnd]
    have hold : holders pool (applyCreates actual (CreateDelta pool actual desired))
        ⟨a, ab.hostname, d⟩
        = holders pool actual ⟨a, ab.hostname, d⟩ +
          (min 2 pool - holders pool actual ⟨a, ab.hostname, d⟩) := by
      unfold holders
      have hc1 : (List.range pool).filter
          (fun i => decide (Binding.mk a ab.hostname d ∈
            slotAt (applyCreates actual (CreateDelta pool actual desired)) i)) =
          (List.range pool).filter
            (fun i => decide (Binding.mk a ab.hostname d ∈ slotAt actual i) ||
              decide ((i, Binding.mk a ab.hostname d) ∈
                CreateDelta pool actual desired)) := by
        apply List.filter_congr
        intro i _
        rw [← Bool.decide_or]
        exact decide_eq_decide.mpr
          (mem_slotAt_applyCreates (CreateDelta pool actual desired) actual _ i)
      rw [hc1, length_filter_or_disjoint]
      · have hc2 : (List.range pool).filter
            (fun i => decide ((i, Binding.mk a ab.hostname d) ∈
              CreateDelta pool actual desired)) =
            (List.range pool).filter
              (fun i => decide (i ∈ (nonHolders pool actual ⟨a, ab.hostname, d⟩).take
                (min 2 pool - holders pool actual ⟨a, ab.hostname, d⟩))) :=
          List.filter_congr (fun i _ => decide_eq_decide.mpr (hinmem i))
        rw [hc2, length_filter_mem_sublist htakensub (List.nodup_range pool),
          List.length_take, hnhlen]
        congr 1
        exact min_eq_left hmle
      · rintro i hi ⟨hp, hq⟩
        have hbin : Binding.mk a ab.hostname d ∈ slotAt actual i := by simpa using hp
        have hdel : (i, Binding.mk a ab.hostname d) ∈ CreateDelta pool actual desired := by
          simpa using hq
        exact htakenmem i ((hinmem i).mp hdel) hbin
    unfold createsFor
    have hz : min 2 pool -
        holders pool (applyCreates actual (CreateDelta pool actual desired))
          ⟨a, ab.hostname, d⟩ = 0 := by
      rw [hold]
      have h1 := Nat.min_le_left 2 pool
      have h2 := Nat.min_le_right 2 pool
      omega
    rw [hz, List.take_zero, List.map_nil]

/-- Witness for C1, the spec's "replication to 2 of 3" scenario: pool
[A,B,C], actual empty, one desired app with one drain — exactly
min(2,3) − 0 = 2 creates are issued. -/
theorem c1_witness :
    (([("app1", (⟨"h", ["syslog://d"]⟩ : AppBinding))].map Prod.fst).Nodup
      ∧ ("app1", (⟨"h", ["syslog://d"]⟩ : AppBinding)) ∈
          [("app1", (⟨"h", ["syslog://d"]⟩ : AppBinding))]
      ∧ "syslog://d" ∈ (⟨"h", ["syslog://d"]⟩ : AppBinding).drains
      ∧ (⟨"h", ["syslog://d"]⟩ : AppBinding).drains.Nodup)
    ∧ ((CreateDelta 3 [] [("app1", ⟨"h", ["syslog://d"]⟩)]).filter
        (fun c => decide (c.2 = Binding.mk "app1" "h" "syslog://d"))).length
        = min 2 3 - holders 3 [] ⟨"app1", "h", "syslog://d"⟩ := by
  refine ⟨⟨by decide, by decide, by decide, by decide⟩, ?_⟩
  exact (c1_create_delta 3 [] [("app1", ⟨"h", ["syslog://d"]⟩)] "app1" "syslog://d"
    ⟨"h", ["syslog://d"]⟩ (by decide) (by decide) (by decide) (by decide)).1
